import Mathlib

/-!
Shallow embedding of the `serdec` YAML traversal engine
(src/serdec/yaml-deser.c, src/serdec/yaml-ser.c, src/serdec/yaml-error.h).

The external libyaml tokenizer is modelled as a finite list of parse
results: each call to yaml_parser_parse pops the head of the list, and an
`err` head (or an exhausted list) models a libyaml parse failure.  Event
payloads carry their scalar text; the emitter side is modelled at the same
event level (the text rendering between emitter and parser is the external
collaborator whose correctness the spec assumes).
-/

namespace Serdec

/-- The structural events of libyaml that the engine consumes and produces.
`noEvent` models `YAML_NO_EVENT`, the state of a zeroed `yaml_event_t`. -/
inductive Event where
  | noEvent
  | streamStart
  | streamEnd
  | documentStart
  | documentEnd
  | mappingStart
  | mappingEnd
  | sequenceStart
  | sequenceEnd
  | scalar (text : String)
deriving DecidableEq, Repr

/-- One call to `yaml_parser_parse` either produces an event or fails. -/
inductive ParseResult where
  | ok (e : Event)
  | err
deriving DecidableEq, Repr

-- Error codes from src/serdec/yaml-error.h (the enum assigns 0,1,2,... in
-- declaration order, with SERDEC_YAML_MAX_ERROR in the middle).
def SERDEC_YAML_NO_ERROR : Int := 0
def SERDEC_YAML_UNKNOWN_ERROR : Int := 1
def SERDEC_YAML_SYSTEM_ERROR : Int := 2
def SERDEC_YAML_WRONG_TYPE : Int := 3
def SERDEC_YAML_MAX_ERROR : Int := 4
def SERDEC_YAML_UNEXPECTED_EVENT : Int := 5
def SERDEC_YAML_INVALID_BOOLEAN_TOKEN : Int := 6
def SERDEC_YAML_CALLBACK_SIGNALED_ERROR : Int := 7

/-- State of `SerdecYamlDeserializer`: the pending output of the external
parser, the current event, the one-event lookahead buffer, the latched
error code, and the parser problem string (owned by libyaml, read by
`strerror` for `SERDEC_YAML_UNKNOWN_ERROR`). -/
structure Deser where
  source : List ParseResult
  event : Event
  event_buffer : Event
  error : Int
  problem : String
deriving DecidableEq, Repr

/-- Reading `event.data.scalar.value` from a `yaml_event_t`: meaningful only
for scalar events.  For any other event kind the C code would read an
inactive union member (NULL or garbage); that is modelled as `none`. -/
def eventScalarValue : Event → Option String
  | Event.scalar text => some text
  | _ => none

/-- `yaml_peek_event`: delete any buffered event, then parse the next event
into the buffer; on parse failure latch `SERDEC_YAML_UNKNOWN_ERROR` and
return it (the deleted/never-filled buffer reads as `YAML_NO_EVENT`). -/
def yaml_peek_event (deser : Deser) : Deser × Int :=
  match deser.source with
  | ParseResult.ok e :: rest =>
      ({ deser with source := rest, event_buffer := e }, 0)
  | _ =>
      ({ deser with event_buffer := Event.noEvent,
                    error := SERDEC_YAML_UNKNOWN_ERROR },
       SERDEC_YAML_UNKNOWN_ERROR)

/-- `yaml_next_event`: delete the current event; if the lookahead buffer is
empty, parse directly into `event` (failure latches
`SERDEC_YAML_UNKNOWN_ERROR`), otherwise promote the buffered event to
`event` and clear the buffer. -/
def yaml_next_event (deser : Deser) : Deser × Int :=
  match deser.event_buffer with
  | Event.noEvent =>
      match deser.source with
      | ParseResult.ok e :: rest =>
          ({ deser with source := rest, event := e }, 0)
      | _ =>
          ({ deser with event := Event.noEvent,
                        error := SERDEC_YAML_UNKNOWN_ERROR },
           SERDEC_YAML_UNKNOWN_ERROR)
  | e =>
      ({ deser with event := e, event_buffer := Event.noEvent }, 0)

/-! ### strtol model (base 10)

`serdec_yaml_deserialize_int` calls `strtol(text, &end, 10)` and then
rejects the parse unless `*end == '\0'`.  `strtol` skips leading white
space, consumes an optional sign and then a maximal run of decimal digits;
if no digits follow the optional sign, no conversion is performed, the
result is 0 and `end` is left at the start of the original text.  (The
`long` range clamping of `strtol` and the `long`-to-`int` narrowing are not
modelled; the claims under verification do not exercise them.) -/

/-- `isspace` in the C locale. -/
def cIsSpace (c : Char) : Bool :=
  c = ' ' || c = '\t' || c = '\n' || c = '\x0d' || c = '\x0b' || c = '\x0c'

/-- decimal digit test -/
def cIsDigit (c : Char) : Bool :=
  '0' ≤ c && c ≤ '9'

/-- numeric value of the digits, read most-significant first -/
def digitsVal (ds : List Char) : Nat :=
  ds.foldl (fun a c => 10 * a + (c.toNat - '0'.toNat)) 0

/-- optional sign at the head of the text: returns (isNegative, rest) -/
def strtolSign (l : List Char) : Bool × List Char :=
  match l with
  | [] => (false, [])
  | c :: tail =>
      if c = '-' then (true, tail)
      else if c = '+' then (false, tail)
      else (false, c :: tail)

/-- `strtol(s, &end, 10)`: returns the converted value and the suffix of `s`
starting at `end`.  When no conversion is performed, `end` is the start of
the original string, so the whole input is returned as the suffix. -/
def strtol10 (s : List Char) : Int × List Char :=
  let signed := strtolSign (s.dropWhile cIsSpace)
  let digits := signed.2.takeWhile cIsDigit
  if digits = [] then (0, s)
  else ((if signed.1 then -(digitsVal digits : Int) else (digitsVal digits : Int)),
        signed.2.dropWhile cIsDigit)

/-! ### Scalar decode primitives

Each primitive returns the updated deserializer, the (possibly unchanged)
contents of the caller's output variable, and the C return code.  The
output variable is threaded through explicitly so that claims about it
being left untouched on failure can be stated. -/

/-- `serdec_yaml_deserialize_bool` -/
def serdec_yaml_deserialize_bool (deser : Deser) (value : Bool) :
    Deser × Bool × Int :=
  let next := yaml_next_event deser
  if next.2 ≠ 0 then (next.1, value, next.1.error)
  else
    let d := next.1
    match d.event with
    | Event.scalar text =>
        if text = "true" then (d, true, 0)
        else if text = "false" then (d, false, 0)
        else
          (({ d with error := SERDEC_YAML_INVALID_BOOLEAN_TOKEN }), value,
           SERDEC_YAML_INVALID_BOOLEAN_TOKEN)
    | _ =>
        (({ d with error := SERDEC_YAML_UNEXPECTED_EVENT }), value,
         SERDEC_YAML_UNEXPECTED_EVENT)

/-- `serdec_yaml_deserialize_int` -/
def serdec_yaml_deserialize_int (deser : Deser) (value : Int) :
    Deser × Int × Int :=
  let next := yaml_next_event deser
  if next.2 ≠ 0 then (next.1, value, next.1.error)
  else
    let d := next.1
    match d.event with
    | Event.scalar text =>
        let parsed := strtol10 text.data
        if parsed.2 ≠ [] then
          (({ d with error := SERDEC_YAML_SYSTEM_ERROR }), value,
           SERDEC_YAML_SYSTEM_ERROR)
        else (d, parsed.1, 0)
    | _ =>
        (({ d with error := SERDEC_YAML_UNEXPECTED_EVENT }), value,
         SERDEC_YAML_UNEXPECTED_EVENT)

/-- `serdec_yaml_deserialize_string`: on success the output variable is
pointed at the scalar text. -/
def serdec_yaml_deserialize_string (deser : Deser) (value : Option String) :
    Deser × Option String × Int :=
  let next := yaml_next_event deser
  if next.2 ≠ 0 then (next.1, value, next.1.error)
  else
    let d := next.1
    match d.event with
    | Event.scalar text => (d, some text, 0)
    | _ =>
        (({ d with error := SERDEC_YAML_UNEXPECTED_EVENT }), value,
         SERDEC_YAML_UNEXPECTED_EVENT)

/-! ### Container decoding

`serdec_yaml_deserialize_map` / `serdec_yaml_deserialize_list` loop over
the entries of a container, invoking a user callback once per entry.  The
`while` loops are modelled with a fuel parameter (the C loops terminate
because every iteration consumes at least the peeked event from the
parser); with fuel at least the length of the remaining source the
sentinel `-1` branch is unreachable.  The callback receives the
deserializer, a user state of type `σ` (modelling `user_data`), and the
key (resp. index), and returns the updated deserializer, updated user
state, and its result code. -/

/-- Loop body of `serdec_yaml_deserialize_map`.  Per iteration: peek the
next event; on peek failure or on `MappingEnd`, delete the buffered event
and return 0 (note the C code returns 0 even on peek failure — only the
error slot records `SERDEC_YAML_UNKNOWN_ERROR`).  Otherwise the buffered
event is copied out as the key event (with no check that it is a scalar:
the key text is whatever sits in the event's scalar-value union field) and
the callback is invoked; a nonzero callback result latches and returns
`SERDEC_YAML_CALLBACK_SIGNALED_ERROR`. -/
def mapLoop {σ : Type} (cb : Deser → σ → Option String → Deser × σ × Int) :
    Nat → Deser → σ → Deser × σ × Int
  | 0, d, u => (d, u, -1)
  | fuel + 1, d, u =>
      let peeked := yaml_peek_event d
      if peeked.2 ≠ 0 then
        ({ peeked.1 with event_buffer := Event.noEvent }, u, 0)
      else if peeked.1.event_buffer = Event.mappingEnd then
        ({ peeked.1 with event_buffer := Event.noEvent }, u, 0)
      else
        let key := eventScalarValue peeked.1.event_buffer
        let c := cb { peeked.1 with event_buffer := Event.noEvent } u key
        if c.2.2 ≠ 0 then
          ({ c.1 with error := SERDEC_YAML_CALLBACK_SIGNALED_ERROR }, c.2.1,
           SERDEC_YAML_CALLBACK_SIGNALED_ERROR)
        else mapLoop cb fuel c.1 c.2.1

/-- `serdec_yaml_deserialize_map`: advance to the next event, require
`MappingStart`, then run the entry loop. -/
def serdec_yaml_deserialize_map {σ : Type}
    (cb : Deser → σ → Option String → Deser × σ × Int)
    (fuel : Nat) (deser : Deser) (u : σ) : Deser × σ × Int :=
  let next := yaml_next_event deser
  if next.2 ≠ 0 then (next.1, u, next.1.error)
  else if next.1.event ≠ Event.mappingStart then
    ({ next.1 with error := SERDEC_YAML_UNEXPECTED_EVENT }, u,
     SERDEC_YAML_UNEXPECTED_EVENT)
  else mapLoop cb fuel next.1 u

/-- Loop body of `serdec_yaml_deserialize_list`.  Unlike the map loop, the
peeked entry event stays in the lookahead buffer when the callback runs
(the callback's first decode promotes it), and the loop's exit returns the
peek result (so a peek failure propagates as `SERDEC_YAML_UNKNOWN_ERROR`).
The index is post-incremented per invocation. -/
def listLoop {σ : Type} (cb : Deser → σ → Nat → Deser × σ × Int) :
    Nat → Deser → σ → Nat → Deser × σ × Int
  | 0, d, u, _ => (d, u, -1)
  | fuel + 1, d, u, index =>
      let peeked := yaml_peek_event d
      if peeked.2 ≠ 0 then
        ({ peeked.1 with event_buffer := Event.noEvent }, u, peeked.2)
      else if peeked.1.event_buffer = Event.sequenceEnd then
        ({ peeked.1 with event_buffer := Event.noEvent }, u, 0)
      else
        let c := cb peeked.1 u index
        if c.2.2 ≠ 0 then
          ({ c.1 with error := SERDEC_YAML_CALLBACK_SIGNALED_ERROR }, c.2.1,
           SERDEC_YAML_CALLBACK_SIGNALED_ERROR)
        else listLoop cb fuel c.1 c.2.1 (index + 1)

/-- `serdec_yaml_deserialize_list`: advance to the next event, require
`SequenceStart`, then run the entry loop starting at index 0. -/
def serdec_yaml_deserialize_list {σ : Type}
    (cb : Deser → σ → Nat → Deser × σ × Int)
    (fuel : Nat) (deser : Deser) (u : σ) : Deser × σ × Int :=
  let next := yaml_next_event deser
  if next.2 ≠ 0 then (next.1, u, next.1.error)
  else if next.1.event ≠ Event.sequenceStart then
    ({ next.1 with error := SERDEC_YAML_UNEXPECTED_EVENT }, u,
     SERDEC_YAML_UNEXPECTED_EVENT)
  else listLoop cb fuel next.1 u 0

/-! ### Construction -/

/-- `prepare_deserializer`: peek events, promoting `StreamStart` /
`DocumentStart` into `event`, until the first other event remains in the
lookahead buffer.  Fuel models the `while (!done)` loop. -/
def prepare_deserializer : Nat → Deser → Deser × Int
  | 0, d => (d, -1)
  | fuel + 1, d =>
      let peeked := yaml_peek_event d
      if peeked.2 ≠ 0 then (peeked.1, peeked.1.error)
      else if peeked.1.event_buffer = Event.streamStart ∨
              peeked.1.event_buffer = Event.documentStart then
        let next := yaml_next_event peeked.1
        if next.2 ≠ 0 then (next.1, next.1.error)
        else prepare_deserializer fuel next.1
      else (peeked.1, 0)

/-- a deserializer state with the given source and lookahead buffer, the
other fields zeroed as `memset` leaves them -/
def mkD (src : List ParseResult) (buf : Event) : Deser :=
  { source := src, event := Event.noEvent, event_buffer := buf,
    error := SERDEC_YAML_NO_ERROR, problem := "" }

/-- `serdec_yaml_deserializer_new_string`: build a zeroed deserializer over
the parser's event sequence for the input text and run
`prepare_deserializer`; on failure no deserializer is returned. -/
def serdec_yaml_deserializer_new_string (source : List ParseResult) :
    Option Deser :=
  let prep := prepare_deserializer (source.length + 1)
    (mkD source Event.noEvent)
  if prep.2 ≠ 0 then none else some prep.1

/-! ### Error inspection -/

/-- The designated-initializer array `SERDEC_YAML_ERROR_STRINGS` of
yaml-deser.c: entries exist for `UNKNOWN_ERROR`, `WRONG_TYPE`,
`UNEXPECTED_EVENT`, `INVALID_BOOLEAN_TOKEN` and `CALLBACK_SIGNALED_ERROR`;
all other slots are NULL. -/
def SERDEC_YAML_ERROR_STRINGS (code : Int) : Option String :=
  if code = SERDEC_YAML_UNKNOWN_ERROR then some "unknown error in libyaml"
  else if code = SERDEC_YAML_WRONG_TYPE then
    some "serializer is the wrong type for the operation"
  else if code = SERDEC_YAML_UNEXPECTED_EVENT then
    some "expected a different event in the stream"
  else if code = SERDEC_YAML_INVALID_BOOLEAN_TOKEN then
    some "expected either 'true' or 'false'"
  else if code = SERDEC_YAML_CALLBACK_SIGNALED_ERROR then
    some "callback returned non-zero"
  else none

/-- The text produced by libc `strerror(errno)`; always a non-NULL string
on POSIX hosts.  Its contents are host-specific and irrelevant here. -/
def hostErrnoMessage : String := "host errno diagnostic"

/-- `serdec_yaml_deserializer_strerror`: NULL for codes outside
`[0, SERDEC_YAML_MAX_ERROR)`; `strerror(errno)` for `SYSTEM_ERROR`;
`parser.problem` for `UNKNOWN_ERROR`; otherwise the string table entry. -/
def serdec_yaml_deserializer_strerror (deser : Deser) : Option String :=
  if deser.error < 0 ∨ SERDEC_YAML_MAX_ERROR ≤ deser.error then none
  else if deser.error = SERDEC_YAML_SYSTEM_ERROR then some hostErrnoMessage
  else if deser.error = SERDEC_YAML_UNKNOWN_ERROR then some deser.problem
  else SERDEC_YAML_ERROR_STRINGS deser.error

/-! ### Serializer (src/serdec/yaml-ser.c)

The emitter and its text rendering are the excluded external collaborator;
emission is modelled at the event level: each `yaml_emitter_emit` appends
one structural event to the sink and succeeds (the spec assumes the
tokenizer/emitter correct, so the `UNKNOWN_ERROR` branches on emit failure
are never taken in this model). -/

/-- Serializer session state: the events pushed to the sink so far, and
the latched error code. -/
structure Ser where
  emitted : List Event
  error : Int
deriving DecidableEq, Repr

/-- `yaml_emitter_emit`, at the event level -/
def yaml_emitter_emit (ser : Ser) (e : Event) : Ser :=
  { ser with emitted := ser.emitted ++ [e] }

/-- `serdec_yaml_serializer_new_string` (sink state only) -/
def serdec_yaml_serializer_new_string : Ser :=
  { emitted := [], error := SERDEC_YAML_NO_ERROR }

/-- `serdec_yaml_serialize_start`: stream begin then document begin -/
def serdec_yaml_serialize_start (ser : Ser) : Ser × Int :=
  (yaml_emitter_emit (yaml_emitter_emit ser Event.streamStart)
    Event.documentStart, 0)

/-- `serdec_yaml_serialize_end`: document end then stream end -/
def serdec_yaml_serialize_end (ser : Ser) : Ser × Int :=
  (yaml_emitter_emit (yaml_emitter_emit ser Event.documentEnd)
    Event.streamEnd, 0)

/-- `serdec_yaml_serialize_map_start` -/
def serdec_yaml_serialize_map_start (ser : Ser) : Ser × Int :=
  (yaml_emitter_emit ser Event.mappingStart, 0)

/-- `serdec_yaml_serialize_map_end` -/
def serdec_yaml_serialize_map_end (ser : Ser) : Ser × Int :=
  (yaml_emitter_emit ser Event.mappingEnd, 0)

/-- `serdec_yaml_serialize_map_key`: the key as a plain scalar -/
def serdec_yaml_serialize_map_key (ser : Ser) (key : String) : Ser × Int :=
  (yaml_emitter_emit ser (Event.scalar key), 0)

/-- `serdec_yaml_serialize_list_start` -/
def serdec_yaml_serialize_list_start (ser : Ser) : Ser × Int :=
  (yaml_emitter_emit ser Event.sequenceStart, 0)

/-- `serdec_yaml_serialize_list_end` -/
def serdec_yaml_serialize_list_end (ser : Ser) : Ser × Int :=
  (yaml_emitter_emit ser Event.sequenceEnd, 0)

/-- `serdec_yaml_serialize_bool`: emits the literal text. -/
def serdec_yaml_serialize_bool (ser : Ser) (value : Bool) : Ser × Int :=
  (yaml_emitter_emit ser (Event.scalar (if value then "true" else "false")), 0)

/-- decimal digits of `n`, least significant first (empty for 0) -/
def natDigitsRev (n : Nat) : List Char :=
  if n = 0 then []
  else Nat.digitChar (n % 10) :: natDigitsRev (n / 10)
decreasing_by exact Nat.div_lt_self (Nat.pos_of_ne_zero (by assumption)) (by norm_num)

/-- decimal rendering of a natural number, as `printf` would produce it -/
def natToChars (n : Nat) : List Char :=
  if n = 0 then ['0'] else (natDigitsRev n).reverse

/-- `snprintf(buffer, 64, "%d", value)`: sign, then decimal digits -/
def intToChars (n : Int) : List Char :=
  if n < 0 then '-' :: natToChars n.natAbs else natToChars n.toNat

/-- `serdec_yaml_serialize_int`: formats in base 10, emits as a scalar. -/
def serdec_yaml_serialize_int (ser : Ser) (value : Int) : Ser × Int :=
  (yaml_emitter_emit ser (Event.scalar (String.mk (intToChars value))), 0)

/-- `serdec_yaml_serialize_string`: emits the text as a single-quoted
scalar; quoting affects only the excluded text layer, so at the event
level the scalar carries the text verbatim. -/
def serdec_yaml_serialize_string (ser : Ser) (value : String) : Ser × Int :=
  (yaml_emitter_emit ser (Event.scalar value), 0)

/-! ### In-memory values and the application-side codec composition

The engine is callback-driven: per-type encode/decode routines are
application code composed from the library primitives (see
src/test/yaml.c and the test visitors in src/test/test-yaml-deser.c).
`YamlValue` is the in-memory aggregate; `serializeValue` walks it pushing
the serializer routines; `decodeAs` drives the decoder primitives
following the shape of a schema value (only the shape of the first
argument is consulted — decoded payloads come from the event stream), the
way a generated per-type visitor would. -/

/-- In-memory aggregate value: maps, lists, booleans, integers, strings. -/
inductive YamlValue where
  | bool (b : Bool)
  | int (n : Int)
  | str (s : String)
  | map (entries : List (String × YamlValue))
  | list (elems : List YamlValue)

mutual

/-- the events that serializing a value pushes to the sink -/
def valueEvents : YamlValue → List Event
  | YamlValue.bool b => [Event.scalar (if b then "true" else "false")]
  | YamlValue.int n => [Event.scalar (String.mk (intToChars n))]
  | YamlValue.str s => [Event.scalar s]
  | YamlValue.map entries =>
      Event.mappingStart :: (entriesEvents entries ++ [Event.mappingEnd])
  | YamlValue.list elems =>
      Event.sequenceStart :: (elemsEvents elems ++ [Event.sequenceEnd])

/-- events for the entries of a map: key scalar, then the value's events -/
def entriesEvents : List (String × YamlValue) → List Event
  | [] => []
  | (k, v) :: rest => Event.scalar k :: (valueEvents v ++ entriesEvents rest)

/-- events for the elements of a list -/
def elemsEvents : List YamlValue → List Event
  | [] => []
  | v :: rest => valueEvents v ++ elemsEvents rest

end

mutual

/-- application-side encoder: push one value through the serializer
routines (map: `_map_start`, per entry `_map_key` then the value,
`_map_end`; list: `_list_start`, elements, `_list_end`) -/
def serializeValue (ser : Ser) : YamlValue → Ser
  | YamlValue.bool b => (serdec_yaml_serialize_bool ser b).1
  | YamlValue.int n => (serdec_yaml_serialize_int ser n).1
  | YamlValue.str s => (serdec_yaml_serialize_string ser s).1
  | YamlValue.map entries =>
      (serdec_yaml_serialize_map_end
        (serializeEntries (serdec_yaml_serialize_map_start ser).1 entries)).1
  | YamlValue.list elems =>
      (serdec_yaml_serialize_list_end
        (serializeElems (serdec_yaml_serialize_list_start ser).1 elems)).1

/-- encode the entries of a map, in order -/
def serializeEntries (ser : Ser) : List (String × YamlValue) → Ser
  | [] => ser
  | (k, v) :: rest =>
      serializeEntries
        (serializeValue (serdec_yaml_serialize_map_key ser k).1 v) rest

/-- encode the elements of a list, in order -/
def serializeElems (ser : Ser) : List YamlValue → Ser
  | [] => ser
  | v :: rest => serializeElems (serializeValue ser v) rest

end

mutual

/-- application-side decoder: drive the decoder primitives following the
shape of the schema argument.  Scalars call the scalar primitives; a map
schema inlines the entry protocol of `serdec_yaml_deserialize_map` with a
visitor that decodes each entry's value by its sub-schema; a list schema
does the same with `serdec_yaml_deserialize_list`'s protocol.  Returns
`none` if any library primitive fails or the document's shape does not
match the schema (the visitor signals failure). -/
def decodeAs : YamlValue → Deser → Deser × Option YamlValue
  | YamlValue.bool _, d =>
      let r := serdec_yaml_deserialize_bool d false
      (r.1, if r.2.2 = 0 then some (YamlValue.bool r.2.1) else none)
  | YamlValue.int _, d =>
      let r := serdec_yaml_deserialize_int d 0
      (r.1, if r.2.2 = 0 then some (YamlValue.int r.2.1) else none)
  | YamlValue.str _, d =>
      let r := serdec_yaml_deserialize_string d none
      (r.1, if r.2.2 = 0 then Option.map YamlValue.str r.2.1 else none)
  | YamlValue.map entries, d =>
      let next := yaml_next_event d
      if next.2 ≠ 0 then (next.1, none)
      else if next.1.event ≠ Event.mappingStart then
        ({ next.1 with error := SERDEC_YAML_UNEXPECTED_EVENT }, none)
      else
        let r := decodeMapEntries entries next.1
        (r.1, Option.map YamlValue.map r.2)
  | YamlValue.list elems, d =>
      let next := yaml_next_event d
      if next.2 ≠ 0 then (next.1, none)
      else if next.1.event ≠ Event.sequenceStart then
        ({ next.1 with error := SERDEC_YAML_UNEXPECTED_EVENT }, none)
      else
        let r := decodeListElems elems next.1
        (r.1, Option.map YamlValue.list r.2)

/-- the map-entry loop, with the schema's remaining entries as visitor
state: peek; `MappingEnd` ends the map (buffered terminator consumed);
otherwise the buffered event's scalar-value field is the key and the
entry's value is decoded by the head sub-schema.  A leftover or missing
entry relative to the schema makes the visitor signal failure. -/
def decodeMapEntries :
    List (String × YamlValue) → Deser →
      Deser × Option (List (String × YamlValue))
  | entries, d =>
      let peeked := yaml_peek_event d
      if peeked.2 ≠ 0 then (peeked.1, none)
      else if peeked.1.event_buffer = Event.mappingEnd then
        match entries with
        | [] => ({ peeked.1 with event_buffer := Event.noEvent }, some [])
        | _ :: _ => ({ peeked.1 with event_buffer := Event.noEvent }, none)
      else
        match entries with
        | [] => (peeked.1, none)
        | (_, sub) :: rest =>
            match eventScalarValue peeked.1.event_buffer with
            | none => ({ peeked.1 with event_buffer := Event.noEvent }, none)
            | some key =>
                let dv := decodeAs sub
                  { peeked.1 with event_buffer := Event.noEvent }
                match dv.2 with
                | none => (dv.1, none)
                | some v =>
                    let dr := decodeMapEntries rest dv.1
                    (dr.1, Option.map (fun l => (key, v) :: l) dr.2)

/-- the list-element loop: peek; `SequenceEnd` ends the list (buffered
terminator consumed); otherwise the element is decoded by the head
sub-schema, with the peeked event left in the lookahead buffer exactly as
`serdec_yaml_deserialize_list` leaves it for its callback. -/
def decodeListElems :
    List YamlValue → Deser → Deser × Option (List YamlValue)
  | elems, d =>
      let peeked := yaml_peek_event d
      if peeked.2 ≠ 0 then (peeked.1, none)
      else if peeked.1.event_buffer = Event.sequenceEnd then
        match elems with
        | [] => ({ peeked.1 with event_buffer := Event.noEvent }, some [])
        | _ :: _ => ({ peeked.1 with event_buffer := Event.noEvent }, none)
      else
        match elems with
        | [] => (peeked.1, none)
        | sub :: rest =>
            let dv := decodeAs sub peeked.1
            match dv.2 with
            | none => (dv.1, none)
            | some v =>
                let dr := decodeListElems rest dv.1
                (dr.1, Option.map (fun l => v :: l) dr.2)

end

/-- the full encode pipeline of one document: `_start`, the value, `_end` -/
def serializeDoc (v : YamlValue) : Ser :=
  (serdec_yaml_serialize_end
    (serializeValue (serdec_yaml_serialize_start
      serdec_yaml_serializer_new_string).1 v)).1

/-- encode a value to an event stream, hand that stream (through the
assumed-correct emitter/tokenizer text layer) to a fresh deserializer, and
decode it back with the schema-directed visitors -/
def roundTrip (v : YamlValue) : Option YamlValue :=
  match serdec_yaml_deserializer_new_string
      ((serializeDoc v).emitted.map ParseResult.ok) with
  | none => none
  | some d => (decodeAs v d).2

/-- a deserializer state whose error slot holds the given code -/
def mkErr (code : Int) : Deser :=
  { source := [], event := Event.noEvent, event_buffer := Event.noEvent,
    error := code, problem := "" }

/-- A list visitor in the style of `my_struct_visit_list_entry` from the
tests: its user state carries the sub-schemas of the elements still
expected and the log of the indices it has been invoked with.  Each
invocation decodes exactly one element (via the decode primitives driven
by `decodeAs`), appends its index argument to the log on success, and
signals failure if decoding fails or no further element is expected. -/
def schemaListVisitor (d : Deser) (st : List YamlValue × List Nat)
    (index : Nat) : Deser × (List YamlValue × List Nat) × Int :=
  match st.1 with
  | [] => (d, st, 1)
  | s :: ss =>
      let r := decodeAs s d
      match r.2 with
      | some _ => (r.1, (ss, st.2 ++ [index]), 0)
      | none => (r.1, (ss, st.2), 1)

end Serdec

namespace Serdec

/-! ## Claims about the scalar decode primitives -/

/-- C2.  When the event fetched by `serdec_yaml_deserialize_bool` is a
scalar with text `t`, the call succeeds exactly for the literal texts
"true" (yielding `true`) and "false" (yielding `false`); for every other
text — "0", "1", "True" included — it fails with
`SERDEC_YAML_INVALID_BOOLEAN_TOKEN`, which is both returned and latched in
the error slot, and the output variable is untouched. -/
theorem claim_C2_bool_literal (d : Deser) (t : String) (v0 : Bool)
    (h : d.event_buffer = Event.scalar t) :
    serdec_yaml_deserialize_bool d v0 =
      (if t = "true" then
        ({ d with event := Event.scalar t, event_buffer := Event.noEvent },
         true, 0)
      else if t = "false" then
        ({ d with event := Event.scalar t, event_buffer := Event.noEvent },
         false, 0)
      else
        ({ d with event := Event.scalar t, event_buffer := Event.noEvent,
                  error := SERDEC_YAML_INVALID_BOOLEAN_TOKEN },
         v0, SERDEC_YAML_INVALID_BOOLEAN_TOKEN)) := by
  by_cases h1 : t = "true" <;> by_cases h2 : t = "false" <;>
    simp [serdec_yaml_deserialize_bool, yaml_next_event, h, h1, h2,
      SERDEC_YAML_INVALID_BOOLEAN_TOKEN]

/-- Witness for C2: on the scalar "True" the call fails with
`InvalidBooleanToken` (no case-insensitive matching), on "true" it
succeeds with `true`. -/
theorem claim_C2_bool_literal_witness :
    (serdec_yaml_deserialize_bool (mkD [] (Event.scalar "True")) false).2 =
      (false, SERDEC_YAML_INVALID_BOOLEAN_TOKEN) ∧
    (serdec_yaml_deserialize_bool (mkD [] (Event.scalar "True")) false).1.error
      = SERDEC_YAML_INVALID_BOOLEAN_TOKEN ∧
    (serdec_yaml_deserialize_bool (mkD [] (Event.scalar "true")) false).2 =
      (true, 0) := by
  refine ⟨?_, ?_, ?_⟩
  · have h := claim_C2_bool_literal (mkD [] (Event.scalar "True")) "True"
      false rfl
    rw [h]; decide
  · have h := claim_C2_bool_literal (mkD [] (Event.scalar "True")) "True"
      false rfl
    rw [h]; decide
  · have h := claim_C2_bool_literal (mkD [] (Event.scalar "true")) "true"
      false rfl
    rw [h]; decide

/-- C3.  When the event fetched by `serdec_yaml_deserialize_int` is a
scalar with text `t`, the text is parsed as a base-10 signed integer by
`strtol`; the call succeeds with the parsed value exactly when the parse
consumes the entire text, and any remaining suffix (for example trailing
non-digit characters after a valid prefix) makes it fail with
`SERDEC_YAML_SYSTEM_ERROR`, leaving the output variable untouched. -/
theorem claim_C3_int_full_parse (d : Deser) (t : String) (v0 : Int)
    (h : d.event_buffer = Event.scalar t) :
    serdec_yaml_deserialize_int d v0 =
      (if (strtol10 t.data).2 = [] then
        ({ d with event := Event.scalar t, event_buffer := Event.noEvent },
         (strtol10 t.data).1, 0)
      else
        ({ d with event := Event.scalar t, event_buffer := Event.noEvent,
                  error := SERDEC_YAML_SYSTEM_ERROR },
         v0, SERDEC_YAML_SYSTEM_ERROR)) := by
  by_cases h1 : (strtol10 t.data).2 = [] <;>
    simp [serdec_yaml_deserialize_int, yaml_next_event, h, h1,
      SERDEC_YAML_SYSTEM_ERROR]

/-- Witness for C3: "42" parses to 42, "-7" parses to -7, and "42abc"
fails with `SystemError` (no partial parse), the output variable keeping
its prior value 99. -/
theorem claim_C3_int_full_parse_witness :
    (serdec_yaml_deserialize_int (mkD [] (Event.scalar "42")) 99).2 =
      (42, 0) ∧
    (serdec_yaml_deserialize_int (mkD [] (Event.scalar "-7")) 99).2 =
      (-7, 0) ∧
    (serdec_yaml_deserialize_int (mkD [] (Event.scalar "42abc")) 99).2 =
      (99, SERDEC_YAML_SYSTEM_ERROR) := by
  refine ⟨?_, ?_, ?_⟩
  · have h := claim_C3_int_full_parse (mkD [] (Event.scalar "42")) "42"
      99 rfl
    rw [h]; decide
  · have h := claim_C3_int_full_parse (mkD [] (Event.scalar "-7")) "-7"
      99 rfl
    rw [h]; decide
  · have h := claim_C3_int_full_parse (mkD [] (Event.scalar "42abc"))
      "42abc" 99 rfl
    rw [h]; decide

/-- C10.  Whenever `serdec_yaml_deserialize_bool` or
`serdec_yaml_deserialize_int` returns a nonzero (failure) code — for any
error kind — the caller's output variable still holds exactly the value it
held before the call; it is assigned only on the success path. -/
theorem claim_C10_output_untouched_on_failure (d : Deser) (vb : Bool)
    (vi : Int) :
    ((serdec_yaml_deserialize_bool d vb).2.2 ≠ 0 →
      (serdec_yaml_deserialize_bool d vb).2.1 = vb) ∧
    ((serdec_yaml_deserialize_int d vi).2.2 ≠ 0 →
      (serdec_yaml_deserialize_int d vi).2.1 = vi) := by
  constructor
  · simp only [serdec_yaml_deserialize_bool]
    split
    · intro _; rfl
    · split
      · split
        · intro h; simp at h
        · split
          · intro h; simp at h
          · intro _; rfl
      · intro _; rfl
  · simp only [serdec_yaml_deserialize_int]
    split
    · intro _; rfl
    · split
      · split
        · intro _; rfl
        · intro h; simp at h
      · intro _; rfl

/-- Witness for C10: a failing bool decode (scalar "maybe") and a failing
int decode (scalar "42abc") both leave the output variable at its prior
value. -/
theorem claim_C10_output_untouched_on_failure_witness :
    (serdec_yaml_deserialize_bool (mkD [] (Event.scalar "maybe")) true).2.1
      = true ∧
    (serdec_yaml_deserialize_int (mkD [] (Event.scalar "42abc")) 37).2.1
      = 37 := by
  constructor
  · exact (claim_C10_output_untouched_on_failure
      (mkD [] (Event.scalar "maybe")) true 37).1 (by decide)
  · exact (claim_C10_output_untouched_on_failure
      (mkD [] (Event.scalar "42abc")) true 37).2 (by decide)

/-! ## C8: cursor movement of the scalar primitives

The claim says the primitives advance past the value on success and leave
`current_event` unchanged on failure.  In the code all three primitives
call `yaml_next_event` (which overwrites `event`) before any check, so a
post-advance failure such as `InvalidBooleanToken` leaves `current_event`
holding the newly fetched event, and a success leaves it holding the
scalar just decoded — not the event following it. -/

/-- Counterexample to C8: a cursor whose current event is the scalar
"before" and whose lookahead holds the scalar "xyz".
`serdec_yaml_deserialize_bool` fails (with `InvalidBooleanToken`), yet
`current_event` afterwards differs from what it held before the call. -/
theorem claim_C8_counterexample :
    (serdec_yaml_deserialize_bool
      { source := [], event := Event.scalar "before",
        event_buffer := Event.scalar "xyz", error := 0, problem := "" }
      true).2.2 ≠ 0 ∧
    (serdec_yaml_deserialize_bool
      { source := [], event := Event.scalar "before",
        event_buffer := Event.scalar "xyz", error := 0, problem := "" }
      true).1.event ≠ Event.scalar "before" := by
  decide

/-- C8 as amended: each of `serdec_yaml_deserialize_bool`,
`serdec_yaml_deserialize_int` and `serdec_yaml_deserialize_string` begins
by advancing the cursor, so whenever the fetch promotes a buffered event
`e`, `current_event` afterwards holds `e` — on success the scalar just
decoded (not the event following it), and on the post-advance failures
(`UnexpectedEvent`, `InvalidBooleanToken`, `SystemError`) likewise the
fetched event, overwriting the pre-call `current_event`. -/
theorem claim_C8_amended_cursor_advance (d : Deser) (e : Event)
    (vb : Bool) (vi : Int) (vs : Option String)
    (he : d.event_buffer = e) (hne : e ≠ Event.noEvent) :
    (serdec_yaml_deserialize_bool d vb).1.event = e ∧
    (serdec_yaml_deserialize_int d vi).1.event = e ∧
    (serdec_yaml_deserialize_string d vs).1.event = e := by
  have hnext : yaml_next_event d =
      ({ d with event := e, event_buffer := Event.noEvent }, 0) := by
    cases e <;>
      simp_all [yaml_next_event]
  refine ⟨?_, ?_, ?_⟩
  · simp only [serdec_yaml_deserialize_bool, hnext]
    split
    · simp at *
    · split
      · split
        · rfl
        · split <;> rfl
      · rename_i hev
        cases e <;> simp_all
  · simp only [serdec_yaml_deserialize_int, hnext]
    split
    · simp at *
    · split
      · split <;> rfl
      · rename_i hev
        cases e <;> simp_all
  · simp only [serdec_yaml_deserialize_string, hnext]
    split
    · simp at *
    · split
      · rfl
      · rename_i hev
        cases e <;> simp_all

/-- Witness for the amended C8: a failing bool decode and a successful int
decode both leave `current_event` holding the fetched scalar. -/
theorem claim_C8_amended_cursor_advance_witness :
    (serdec_yaml_deserialize_bool (mkD [] (Event.scalar "nope")) true).1.event
      = Event.scalar "nope" ∧
    (serdec_yaml_deserialize_int (mkD [] (Event.scalar "7")) 0).1.event
      = Event.scalar "7" := by
  constructor
  · exact (claim_C8_amended_cursor_advance (mkD [] (Event.scalar "nope"))
      (Event.scalar "nope") true 0 none rfl (by decide)).1
  · exact (claim_C8_amended_cursor_advance (mkD [] (Event.scalar "7"))
      (Event.scalar "7") true 0 none rfl (by decide)).2.1

/-! ## C9: strerror coverage

`SERDEC_YAML_MAX_ERROR` sits in the middle of the error enum (value 4),
before `UNEXPECTED_EVENT` (5), `INVALID_BOOLEAN_TOKEN` (6) and
`CALLBACK_SIGNALED_ERROR` (7), and `serdec_yaml_deserializer_strerror`
rejects any code `≥ SERDEC_YAML_MAX_ERROR`.  So the three deserializer
error kinds get NULL from `strerror` even though the translation table in
yaml-deser.c defines diagnostic strings for exactly those codes. -/

/-- C9 evaluated at the failing inputs: with `UnexpectedEvent`,
`InvalidBooleanToken` or `CallbackSignaledError` latched,
`serdec_yaml_deserializer_strerror` returns NULL — although the string
table of yaml-deser.c has entries for all three codes — while the codes
below `SERDEC_YAML_MAX_ERROR` (`UnknownError`, `SystemError`,
`WrongType`) do produce diagnostics. -/
theorem claim_C9_strerror_gap :
    serdec_yaml_deserializer_strerror (mkErr SERDEC_YAML_UNEXPECTED_EVENT)
      = none ∧
    serdec_yaml_deserializer_strerror
      (mkErr SERDEC_YAML_INVALID_BOOLEAN_TOKEN) = none ∧
    serdec_yaml_deserializer_strerror
      (mkErr SERDEC_YAML_CALLBACK_SIGNALED_ERROR) = none ∧
    (SERDEC_YAML_ERROR_STRINGS SERDEC_YAML_UNEXPECTED_EVENT).isSome ∧
    (SERDEC_YAML_ERROR_STRINGS SERDEC_YAML_INVALID_BOOLEAN_TOKEN).isSome ∧
    (SERDEC_YAML_ERROR_STRINGS SERDEC_YAML_CALLBACK_SIGNALED_ERROR).isSome ∧
    (serdec_yaml_deserializer_strerror
      (mkErr SERDEC_YAML_UNKNOWN_ERROR)).isSome ∧
    (serdec_yaml_deserializer_strerror
      (mkErr SERDEC_YAML_SYSTEM_ERROR)).isSome ∧
    (serdec_yaml_deserializer_strerror
      (mkErr SERDEC_YAML_WRONG_TYPE)).isSome := by
  decide

/-! ## C7: peek failure inside map decoding

When `yaml_peek_event` fails inside `serdec_yaml_deserialize_map`'s entry
loop, the loop exit condition `!(result = yaml_peek_event(deser))` falls
through to the trailing `return 0`; the function latches
`SERDEC_YAML_UNKNOWN_ERROR` in the error slot but reports success to the
caller, contradicting both the claim and the function's own documentation
("Return non-zero if parsing encountered an error, for any reason").  The
sibling `serdec_yaml_deserialize_list` ends with `return result` and does
propagate the failure. -/

/-- C7 evaluated at the failing input: a map whose event source fails
right after `MappingStart`.  `serdec_yaml_deserialize_map` latches
`UnknownError` but returns 0 (success) to its caller, while
`serdec_yaml_deserialize_list` on the symmetric input propagates the
nonzero code. -/
theorem claim_C7_peek_failure_returns_success :
    (serdec_yaml_deserialize_map (σ := Unit) (fun d u _ => (d, u, 0)) 2
      (mkD [ParseResult.ok Event.mappingStart, ParseResult.err]
        Event.noEvent) ()).2.2 = 0 ∧
    (serdec_yaml_deserialize_map (σ := Unit) (fun d u _ => (d, u, 0)) 2
      (mkD [ParseResult.ok Event.mappingStart, ParseResult.err]
        Event.noEvent) ()).1.error = SERDEC_YAML_UNKNOWN_ERROR ∧
    (serdec_yaml_deserialize_list (σ := Unit) (fun d u _ => (d, u, 0)) 2
      (mkD [ParseResult.ok Event.sequenceStart, ParseResult.err]
        Event.noEvent) ()).2.2 = SERDEC_YAML_UNKNOWN_ERROR := by
  decide

/-! ## C6: non-scalar events in key position

The entry loop of `serdec_yaml_deserialize_map` performs no check on the
peeked key event: any event other than `MappingEnd` is copied out as the
key event and the callback is invoked with whatever sits in the event's
scalar-value union field (NULL/garbage for container events).  No
`UnexpectedEvent` failure occurs. -/

/-- C6 evaluated at the failing input: a `SequenceStart` in key position.
The callback — which logs the key it is given — is invoked (receiving the
non-scalar event's NULL scalar-value field) instead of the map decode
failing with `UnexpectedEvent`. -/
theorem claim_C6_nonscalar_key_not_rejected :
    (serdec_yaml_deserialize_map (σ := List (Option String))
      (fun d u k => (d, u ++ [k], 1)) 2
      (mkD [ParseResult.ok Event.mappingStart,
            ParseResult.ok Event.sequenceStart] Event.noEvent) []).2.1
      = [none] ∧
    (serdec_yaml_deserialize_map (σ := List (Option String))
      (fun d u k => (d, u ++ [k], 1)) 2
      (mkD [ParseResult.ok Event.mappingStart,
            ParseResult.ok Event.sequenceStart] Event.noEvent) []).2.2
      ≠ SERDEC_YAML_UNEXPECTED_EVENT ∧
    (serdec_yaml_deserialize_map (σ := List (Option String))
      (fun d u k => (d, u ++ [k], 1)) 2
      (mkD [ParseResult.ok Event.mappingStart,
            ParseResult.ok Event.sequenceStart] Event.noEvent) []).1.error
      ≠ SERDEC_YAML_UNEXPECTED_EVENT := by
  decide

/-! ## C5: failing callbacks stop the decode immediately -/

/-- C5.  In the entry loop of `serdec_yaml_deserialize_map` (`mapLoop`)
and of `serdec_yaml_deserialize_list` (`listLoop`): at any iteration where
the peek succeeds, the container has not ended, and the visitor callback
invocation returns a failure signal, the loop returns at once with
`SERDEC_YAML_CALLBACK_SIGNALED_ERROR` latched and returned, and the user
state is exactly the failing invocation's output — the callback is not
invoked for any further entry and no stream resynchronization happens. -/
theorem claim_C5_callback_failure_stops :
    (∀ (σ : Type) (cb : Deser → σ → Option String → Deser × σ × Int)
      (fuel : Nat) (d : Deser) (u : σ),
      (yaml_peek_event d).2 = 0 →
      (yaml_peek_event d).1.event_buffer ≠ Event.mappingEnd →
      (cb { (yaml_peek_event d).1 with event_buffer := Event.noEvent } u
        (eventScalarValue (yaml_peek_event d).1.event_buffer)).2.2 ≠ 0 →
      mapLoop cb (fuel + 1) d u =
        ({ (cb { (yaml_peek_event d).1 with event_buffer := Event.noEvent }
              u (eventScalarValue (yaml_peek_event d).1.event_buffer)).1
            with error := SERDEC_YAML_CALLBACK_SIGNALED_ERROR },
         (cb { (yaml_peek_event d).1 with event_buffer := Event.noEvent } u
            (eventScalarValue (yaml_peek_event d).1.event_buffer)).2.1,
         SERDEC_YAML_CALLBACK_SIGNALED_ERROR)) ∧
    (∀ (σ : Type) (cb : Deser → σ → Nat → Deser × σ × Int)
      (fuel : Nat) (d : Deser) (u : σ) (index : Nat),
      (yaml_peek_event d).2 = 0 →
      (yaml_peek_event d).1.event_buffer ≠ Event.sequenceEnd →
      (cb (yaml_peek_event d).1 u index).2.2 ≠ 0 →
      listLoop cb (fuel + 1) d u index =
        ({ (cb (yaml_peek_event d).1 u index).1
            with error := SERDEC_YAML_CALLBACK_SIGNALED_ERROR },
         (cb (yaml_peek_event d).1 u index).2.1,
         SERDEC_YAML_CALLBACK_SIGNALED_ERROR)) := by
  constructor
  · intro σ cb fuel d u hpeek hend hcb
    simp [mapLoop, hpeek, hend, hcb]
  · intro σ cb fuel d u index hpeek hend hcb
    simp [listLoop, hpeek, hend, hcb]

/-- Witness for C5: a two-entry map whose key-logging visitor fails on the
second entry ("k2"): the loop (entered at the second iteration's state)
returns `CallbackSignaledError` with only that invocation recorded, and no
later entry is visited. -/
theorem claim_C5_callback_failure_stops_witness :
    mapLoop (σ := List (Option String)) (fun d u k => (d, u ++ [k], 1)) 3
      (mkD [ParseResult.ok (Event.scalar "k2"),
            ParseResult.ok (Event.scalar "v2"),
            ParseResult.ok (Event.scalar "k3")] Event.noEvent)
      [some "k1"]
      = ({ mkD [ParseResult.ok (Event.scalar "v2"),
                ParseResult.ok (Event.scalar "k3")] Event.noEvent with
            error := SERDEC_YAML_CALLBACK_SIGNALED_ERROR },
         [some "k1", some "k2"], SERDEC_YAML_CALLBACK_SIGNALED_ERROR) ∧
    listLoop (σ := List Nat) (fun d u i => (d, u ++ [i], 1)) 3
      (mkD [ParseResult.ok (Event.scalar "e2"),
            ParseResult.ok (Event.scalar "e3")] Event.noEvent) [0] 1
      = ({ mkD [ParseResult.ok (Event.scalar "e3")]
            (Event.scalar "e2") with
            error := SERDEC_YAML_CALLBACK_SIGNALED_ERROR },
         [0, 1], SERDEC_YAML_CALLBACK_SIGNALED_ERROR) := by
  constructor
  · have h := claim_C5_callback_failure_stops.1 (List (Option String))
      (fun d u k => (d, u ++ [k], 1)) 2
      (mkD [ParseResult.ok (Event.scalar "k2"),
            ParseResult.ok (Event.scalar "v2"),
            ParseResult.ok (Event.scalar "k3")] Event.noEvent)
      [some "k1"] (by decide) (by decide) (by decide)
    rw [h]; decide
  · have h := claim_C5_callback_failure_stops.2 (List Nat)
      (fun d u i => (d, u ++ [i], 1)) 2
      (mkD [ParseResult.ok (Event.scalar "e2"),
            ParseResult.ok (Event.scalar "e3")] Event.noEvent) [0] 1
      (by decide) (by decide) (by decide)
    rw [h]; decide

/-! ## Round trip of the decimal rendering through the strtol model -/

theorem natDigitsRev_zero : natDigitsRev 0 = [] := by
  unfold natDigitsRev
  simp

theorem natDigitsRev_pos (n : Nat) (h : n ≠ 0) :
    natDigitsRev n = Nat.digitChar (n % 10) :: natDigitsRev (n / 10) := by
  conv_lhs => unfold natDigitsRev
  simp [h]

/-- the decimal digit characters and their basic classification -/
theorem digitChar_facts : ∀ d < 10, cIsDigit (Nat.digitChar d) = true ∧
    cIsSpace (Nat.digitChar d) = false ∧ Nat.digitChar d ≠ '-' ∧
    Nat.digitChar d ≠ '+' ∧ (Nat.digitChar d).toNat - '0'.toNat = d := by
  decide

theorem natDigitsRev_mem (n : Nat) :
    ∀ c ∈ natDigitsRev n, ∃ d, d < 10 ∧ c = Nat.digitChar d := by
  induction n using Nat.strong_induction_on with
  | _ n ih =>
    by_cases h : n = 0
    · subst h
      rw [natDigitsRev_zero]
      intro c hc
      simp at hc
    · rw [natDigitsRev_pos n h]
      intro c hc
      rcases List.mem_cons.mp hc with hcl | hcl
      · exact ⟨n % 10, Nat.mod_lt _ (by norm_num), hcl⟩
      · exact ih (n / 10)
          (Nat.div_lt_self (Nat.pos_of_ne_zero h) (by norm_num)) c hcl

theorem natToChars_mem (n : Nat) :
    ∀ c ∈ natToChars n, ∃ d, d < 10 ∧ c = Nat.digitChar d := by
  intro c hc
  unfold natToChars at hc
  split at hc
  · simp at hc
    exact ⟨0, by norm_num, by rw [hc]; decide⟩
  · exact natDigitsRev_mem n c (List.mem_reverse.mp hc)

theorem natToChars_ne_nil (n : Nat) : natToChars n ≠ [] := by
  unfold natToChars
  split
  · simp
  · simp only [ne_eq, List.reverse_eq_nil_iff]
    rw [natDigitsRev_pos n (by assumption)]
    simp

theorem takeWhile_all {p : Char → Bool} :
    ∀ (l : List Char), (∀ c ∈ l, p c = true) →
      l.takeWhile p = l ∧ l.dropWhile p = [] := by
  intro l
  induction l with
  | nil => intro _; simp
  | cons c cs ih =>
      intro hall
      have hc : p c = true := hall c (List.mem_cons_self c cs)
      have ihr := ih (fun x hx => hall x (List.mem_cons_of_mem c hx))
      simp [List.takeWhile, List.dropWhile, hc, ihr.1, ihr.2]

theorem foldl_digitsRev (n : Nat) : ∀ (a : Nat),
    List.foldl (fun acc c => 10 * acc + (c.toNat - '0'.toNat)) a
        (natDigitsRev n).reverse
      = a * 10 ^ (natDigitsRev n).length + n := by
  induction n using Nat.strong_induction_on with
  | _ n ih =>
    intro a
    by_cases h : n = 0
    · subst h
      rw [natDigitsRev_zero]
      simp
    · rw [natDigitsRev_pos n h]
      simp only [List.reverse_cons, List.foldl_append, List.length_cons,
        List.foldl_cons, List.foldl_nil]
      rw [ih (n / 10) (Nat.div_lt_self (Nat.pos_of_ne_zero h)
        (by norm_num)) a]
      have hd : (Nat.digitChar (n % 10)).toNat - '0'.toNat = n % 10 :=
        (digitChar_facts (n % 10) (Nat.mod_lt _ (by norm_num))).2.2.2.2
      rw [hd]
      have hdm : 10 * (n / 10) + n % 10 = n := Nat.div_add_mod n 10
      calc 10 * (a * 10 ^ (natDigitsRev (n / 10)).length + n / 10) + n % 10
          = a * (10 ^ (natDigitsRev (n / 10)).length * 10) +
              (10 * (n / 10) + n % 10) := by ring
        _ = a * 10 ^ ((natDigitsRev (n / 10)).length + 1) + n := by
              rw [pow_succ, hdm]

theorem digitsVal_natToChars (n : Nat) : digitsVal (natToChars n) = n := by
  unfold natToChars
  split
  · rename_i h
    subst h
    decide
  · have hf := foldl_digitsRev n 0
    unfold digitsVal
    simpa using hf

theorem dropWhile_none {p : Char → Bool} :
    ∀ (l : List Char), (∀ c ∈ l, p c = false) → l.dropWhile p = l := by
  intro l
  induction l with
  | nil => intro _; simp
  | cons c cs _ =>
      intro hall
      simp [List.dropWhile, hall c (List.mem_cons_self c cs)]

theorem natToChars_classify (m : Nat) :
    ∀ c ∈ natToChars m, cIsDigit c = true ∧ cIsSpace c = false ∧
      c ≠ '-' ∧ c ≠ '+' := by
  intro c hc
  obtain ⟨d, hd, rfl⟩ := natToChars_mem m c hc
  have h := digitChar_facts d hd
  exact ⟨h.1, h.2.1, h.2.2.1, h.2.2.2.1⟩

theorem strtol10_natToChars (m : Nat) :
    strtol10 (natToChars m) = ((m : Int), []) := by
  have hmem : ∀ c ∈ natToChars m, cIsDigit c = true :=
    fun c hc => (natToChars_classify m c hc).1
  have hspace : (natToChars m).dropWhile cIsSpace = natToChars m :=
    dropWhile_none _ (fun c hc => (natToChars_classify m c hc).2.1)
  obtain ⟨c, cs, hl⟩ := List.exists_cons_of_ne_nil (natToChars_ne_nil m)
  have hchar := natToChars_classify m c (by rw [hl]; exact List.mem_cons_self c cs)
  have hsign : strtolSign (natToChars m) = (false, natToChars m) := by
    rw [hl]
    simp [strtolSign, hchar.2.2.1, hchar.2.2.2]
  have htake := takeWhile_all (natToChars m) hmem
  simp only [strtol10, hspace, hsign]
  rw [htake.1, htake.2]
  simp [natToChars_ne_nil m, digitsVal_natToChars m]

theorem strtol10_intToChars (n : Int) : strtol10 (intToChars n) = (n, []) := by
  by_cases hn : n < 0
  · have h1 : intToChars n = '-' :: natToChars n.natAbs := by
      simp [intToChars, hn]
    have hspm : cIsSpace '-' = false := by decide
    have hspace : ('-' :: natToChars n.natAbs).dropWhile cIsSpace
        = '-' :: natToChars n.natAbs := by
      simp [List.dropWhile, hspm]
    have hsign : strtolSign ('-' :: natToChars n.natAbs)
        = (true, natToChars n.natAbs) := by
      simp [strtolSign]
    have hmem : ∀ c ∈ natToChars n.natAbs, cIsDigit c = true :=
      fun c hc => (natToChars_classify n.natAbs c hc).1
    have htake := takeWhile_all (natToChars n.natAbs) hmem
    rw [h1]
    simp only [strtol10, hspace, hsign]
    rw [htake.1, htake.2]
    rw [if_neg (natToChars_ne_nil n.natAbs)]
    show (-(↑(digitsVal (natToChars n.natAbs)) : Int), ([] : List Char))
      = (n, [])
    rw [digitsVal_natToChars n.natAbs]
    have hval : -((n.natAbs : Int)) = n := by omega
    rw [hval]
  · have h1 : intToChars n = natToChars n.toNat := by
      simp [intToChars, hn]
    rw [h1, strtol10_natToChars]
    have : ((n.toNat : Int)) = n := by omega
    rw [this]

/-! ## The serializer pushes exactly the value's events, in order -/

mutual

theorem serializeValue_emitted (ser : Ser) (v : YamlValue) :
    serializeValue ser v =
      { emitted := ser.emitted ++ valueEvents v, error := ser.error } := by
  cases v with
  | bool b =>
      simp [serializeValue, valueEvents, serdec_yaml_serialize_bool,
        yaml_emitter_emit]
  | int n =>
      simp [serializeValue, valueEvents, serdec_yaml_serialize_int,
        yaml_emitter_emit]
  | str s =>
      simp [serializeValue, valueEvents, serdec_yaml_serialize_string,
        yaml_emitter_emit]
  | map entries =>
      rw [show serializeValue ser (YamlValue.map entries) =
        (serdec_yaml_serialize_map_end
          (serializeEntries (serdec_yaml_serialize_map_start ser).1
            entries)).1 from rfl]
      rw [serializeEntries_emitted]
      simp [valueEvents, serdec_yaml_serialize_map_start,
        serdec_yaml_serialize_map_end, yaml_emitter_emit]
  | list elems =>
      rw [show serializeValue ser (YamlValue.list elems) =
        (serdec_yaml_serialize_list_end
          (serializeElems (serdec_yaml_serialize_list_start ser).1
            elems)).1 from rfl]
      rw [serializeElems_emitted]
      simp [valueEvents, serdec_yaml_serialize_list_start,
        serdec_yaml_serialize_list_end, yaml_emitter_emit]

theorem serializeEntries_emitted (ser : Ser)
    (l : List (String × YamlValue)) :
    serializeEntries ser l =
      { emitted := ser.emitted ++ entriesEvents l, error := ser.error } := by
  cases l with
  | nil => simp [serializeEntries, entriesEvents]
  | cons kv rest =>
      obtain ⟨k, v⟩ := kv
      rw [show serializeEntries ser ((k, v) :: rest) =
        serializeEntries
          (serializeValue (serdec_yaml_serialize_map_key ser k).1 v) rest
        from rfl]
      rw [serializeValue_emitted, serializeEntries_emitted]
      simp [entriesEvents, serdec_yaml_serialize_map_key, yaml_emitter_emit]

theorem serializeElems_emitted (ser : Ser) (l : List YamlValue) :
    serializeElems ser l =
      { emitted := ser.emitted ++ elemsEvents l, error := ser.error } := by
  cases l with
  | nil => simp [serializeElems, elemsEvents]
  | cons v rest =>
      rw [show serializeElems ser (v :: rest) =
        serializeElems (serializeValue ser v) rest from rfl]
      rw [serializeValue_emitted, serializeElems_emitted]
      simp [elemsEvents]

end

/-- the full document event stream produced by the encode pipeline -/
theorem serializeDoc_emitted (v : YamlValue) :
    (serializeDoc v).emitted =
      Event.streamStart :: Event.documentStart ::
        (valueEvents v ++ [Event.documentEnd, Event.streamEnd]) := by
  unfold serializeDoc
  rw [show (serdec_yaml_serialize_start serdec_yaml_serializer_new_string).1
    = { emitted := [Event.streamStart, Event.documentStart], error := 0 }
    from rfl]
  rw [serializeValue_emitted]
  simp [serdec_yaml_serialize_end, yaml_emitter_emit]

/-! ## Shape of a value's first event -/

theorem valueEvents_head_shape (v : YamlValue) :
    ∃ e tail, valueEvents v = e :: tail ∧
      ((∃ t, e = Event.scalar t) ∨ e = Event.mappingStart ∨
        e = Event.sequenceStart) := by
  cases v with
  | bool b =>
      refine ⟨Event.scalar (if b then "true" else "false"), [], ?_,
        Or.inl ⟨_, rfl⟩⟩
      simp [valueEvents]
  | int n =>
      refine ⟨Event.scalar (String.mk (intToChars n)), [], ?_,
        Or.inl ⟨_, rfl⟩⟩
      simp [valueEvents]
  | str s =>
      refine ⟨Event.scalar s, [], ?_, Or.inl ⟨_, rfl⟩⟩
      simp [valueEvents]
  | map entries =>
      refine ⟨Event.mappingStart,
        entriesEvents entries ++ [Event.mappingEnd], ?_,
        Or.inr (Or.inl rfl)⟩
      simp [valueEvents]
  | list elems =>
      refine ⟨Event.sequenceStart,
        elemsEvents elems ++ [Event.sequenceEnd], ?_,
        Or.inr (Or.inr rfl)⟩
      simp [valueEvents]

theorem valueEvents_head_ne (v : YamlValue) :
    ∃ e tail, valueEvents v = e :: tail ∧ e ≠ Event.noEvent ∧
      e ≠ Event.sequenceEnd ∧ e ≠ Event.mappingEnd ∧
      e ≠ Event.streamStart ∧ e ≠ Event.documentStart := by
  obtain ⟨e, tail, hve, hshape⟩ := valueEvents_head_shape v
  refine ⟨e, tail, hve, ?_, ?_, ?_, ?_, ?_⟩ <;>
    rcases hshape with ⟨t, rfl⟩ | rfl | rfl <;> simp

/-! ## Promoting a buffered event is the same as reading it fresh -/

theorem yaml_next_event_buffered (s : List ParseResult) (x e : Event)
    (er : Int) (pb : String) (he : e ≠ Event.noEvent) :
    yaml_next_event
        { source := s, event := x, event_buffer := e, error := er,
          problem := pb }
      = ({ source := s, event := e, event_buffer := Event.noEvent,
           error := er, problem := pb }, 0) := by
  cases e with
  | noEvent => exact absurd rfl he
  | streamStart => rfl
  | streamEnd => rfl
  | documentStart => rfl
  | documentEnd => rfl
  | mappingStart => rfl
  | mappingEnd => rfl
  | sequenceStart => rfl
  | sequenceEnd => rfl
  | scalar t => rfl

theorem yaml_next_event_fresh (s : List ParseResult) (x e : Event)
    (er : Int) (pb : String) :
    yaml_next_event
        { source := ParseResult.ok e :: s, event := x,
          event_buffer := Event.noEvent, error := er, problem := pb }
      = ({ source := s, event := e, event_buffer := Event.noEvent,
           error := er, problem := pb }, 0) := rfl

/-- The first thing every decode primitive does is `yaml_next_event`, so a
decoder whose lookahead buffer holds `e` decodes exactly like one whose
buffer is empty with `e` prepended to the parser's output (the pre-call
`current_event` is overwritten either way). -/
theorem decodeAs_unpeek (v : YamlValue) (s : List ParseResult)
    (ev ev2 e : Event) (er : Int) (pb : String) (he : e ≠ Event.noEvent) :
    decodeAs v
        { source := s, event := ev, event_buffer := e, error := er,
          problem := pb }
      = decodeAs v
        { source := ParseResult.ok e :: s, event := ev2,
          event_buffer := Event.noEvent, error := er, problem := pb } := by
  have h1 := yaml_next_event_buffered s ev e er pb he
  have h2 := yaml_next_event_fresh s ev2 e er pb
  cases v with
  | bool b =>
      simp only [decodeAs, serdec_yaml_deserialize_bool, h1, h2]
  | int n =>
      simp only [decodeAs, serdec_yaml_deserialize_int, h1, h2]
  | str s2 =>
      simp only [decodeAs, serdec_yaml_deserialize_string, h1, h2]
  | map entries =>
      simp only [decodeAs, h1, h2]
  | list elems =>
      simp only [decodeAs, h1, h2]

/-! ## Decoding the serialized events of a value yields the value back -/

mutual

theorem decodeAs_serialize (v : YamlValue) (rest : List ParseResult)
    (ev : Event) (er : Int) (pb : String) :
    ∃ e2, decodeAs v
        { source := (valueEvents v).map ParseResult.ok ++ rest, event := ev,
          event_buffer := Event.noEvent, error := er, problem := pb }
      = ({ source := rest, event := e2, event_buffer := Event.noEvent,
           error := er, problem := pb }, some v) := by
  cases v with
  | bool b =>
      refine ⟨Event.scalar (if b then "true" else "false"), ?_⟩
      cases b <;>
        simp [decodeAs, valueEvents, serdec_yaml_deserialize_bool,
          yaml_next_event]
  | int n =>
      refine ⟨Event.scalar (String.mk (intToChars n)), ?_⟩
      have hs : strtol10 (String.mk (intToChars n)).data = (n, []) :=
        strtol10_intToChars n
      simp [decodeAs, valueEvents, serdec_yaml_deserialize_int,
        yaml_next_event, hs]
  | str s =>
      refine ⟨Event.scalar s, ?_⟩
      simp [decodeAs, valueEvents, serdec_yaml_deserialize_string,
        yaml_next_event]
  | map entries =>
      obtain ⟨e2, hrec⟩ := decodeMapEntries_serialize entries rest
        Event.mappingStart er pb
      refine ⟨e2, ?_⟩
      have hsrc : (valueEvents (YamlValue.map entries)).map ParseResult.ok
          ++ rest
          = ParseResult.ok Event.mappingStart ::
            ((entriesEvents entries).map ParseResult.ok ++
              (ParseResult.ok Event.mappingEnd :: rest)) := by
        simp [valueEvents]
      rw [hsrc]
      simp only [decodeAs, yaml_next_event_fresh]
      simp [hrec]
  | list elems =>
      obtain ⟨e2, hrec⟩ := decodeListElems_serialize elems rest
        Event.sequenceStart er pb
      refine ⟨e2, ?_⟩
      have hsrc : (valueEvents (YamlValue.list elems)).map ParseResult.ok
          ++ rest
          = ParseResult.ok Event.sequenceStart ::
            ((elemsEvents elems).map ParseResult.ok ++
              (ParseResult.ok Event.sequenceEnd :: rest)) := by
        simp [valueEvents]
      rw [hsrc]
      simp only [decodeAs, yaml_next_event_fresh]
      simp [hrec]

theorem decodeMapEntries_serialize (l : List (String × YamlValue))
    (rest : List ParseResult) (ev : Event) (er : Int) (pb : String) :
    ∃ e2, decodeMapEntries l
        { source := (entriesEvents l).map ParseResult.ok ++
            (ParseResult.ok Event.mappingEnd :: rest),
          event := ev, event_buffer := Event.noEvent, error := er,
          problem := pb }
      = ({ source := rest, event := e2, event_buffer := Event.noEvent,
           error := er, problem := pb }, some l) := by
  cases l with
  | nil =>
      refine ⟨ev, ?_⟩
      simp [decodeMapEntries, entriesEvents, yaml_peek_event]
  | cons kv ls =>
      obtain ⟨k, sub⟩ := kv
      obtain ⟨e1, h1⟩ := decodeAs_serialize sub
        ((entriesEvents ls).map ParseResult.ok ++
          (ParseResult.ok Event.mappingEnd :: rest)) ev er pb
      obtain ⟨e2, h2⟩ := decodeMapEntries_serialize ls rest e1 er pb
      refine ⟨e2, ?_⟩
      have hsrc : (entriesEvents ((k, sub) :: ls)).map ParseResult.ok ++
          (ParseResult.ok Event.mappingEnd :: rest)
          = ParseResult.ok (Event.scalar k) ::
            ((valueEvents sub).map ParseResult.ok ++
              ((entriesEvents ls).map ParseResult.ok ++
                (ParseResult.ok Event.mappingEnd :: rest))) := by
        simp [entriesEvents]
      rw [hsrc]
      simp only [decodeMapEntries, yaml_peek_event]
      simp only [eventScalarValue]
      simp [h1, h2]

theorem decodeListElems_serialize (l : List YamlValue)
    (rest : List ParseResult) (ev : Event) (er : Int) (pb : String) :
    ∃ e2, decodeListElems l
        { source := (elemsEvents l).map ParseResult.ok ++
            (ParseResult.ok Event.sequenceEnd :: rest),
          event := ev, event_buffer := Event.noEvent, error := er,
          problem := pb }
      = ({ source := rest, event := e2, event_buffer := Event.noEvent,
           error := er, problem := pb }, some l) := by
  cases l with
  | nil =>
      refine ⟨ev, ?_⟩
      simp [decodeListElems, elemsEvents, yaml_peek_event]
  | cons sub ls =>
      obtain ⟨e0, tl, hve, hne0, hnse, hnme, _, _⟩ := valueEvents_head_ne sub
      obtain ⟨e1, h1⟩ := decodeAs_serialize sub
        ((elemsEvents ls).map ParseResult.ok ++
          (ParseResult.ok Event.sequenceEnd :: rest)) ev er pb
      obtain ⟨e2, h2⟩ := decodeListElems_serialize ls rest e1 er pb
      refine ⟨e2, ?_⟩
      have hsrc : (elemsEvents (sub :: ls)).map ParseResult.ok ++
          (ParseResult.ok Event.sequenceEnd :: rest)
          = ParseResult.ok e0 ::
            (tl.map ParseResult.ok ++
              ((elemsEvents ls).map ParseResult.ok ++
                (ParseResult.ok Event.sequenceEnd :: rest))) := by
        simp [elemsEvents, hve]
      rw [hsrc]
      simp only [decodeListElems, yaml_peek_event]
      have hun := decodeAs_unpeek sub
        (tl.map ParseResult.ok ++
          ((elemsEvents ls).map ParseResult.ok ++
            (ParseResult.ok Event.sequenceEnd :: rest)))
        ev ev e0 er pb hne0
      have hfresh : ParseResult.ok e0 ::
          (tl.map ParseResult.ok ++
            ((elemsEvents ls).map ParseResult.ok ++
              (ParseResult.ok Event.sequenceEnd :: rest)))
          = (valueEvents sub).map ParseResult.ok ++
            ((elemsEvents ls).map ParseResult.ok ++
              (ParseResult.ok Event.sequenceEnd :: rest)) := by
        simp [hve]
      rw [hfresh] at hun
      simp [hnse, hun, h1, h2]

end

/-! ## Construction over a full document stream -/

/-- `prepare_deserializer` on a `StreamStart`, `DocumentStart` prefix
followed by a content event: the two envelope events are promoted and the
content event is left in the lookahead buffer. -/
theorem prepare_deserializer_doc (fuel : Nat) (e : Event)
    (tail : List ParseResult) (h1 : e ≠ Event.streamStart)
    (h2 : e ≠ Event.documentStart) :
    prepare_deserializer (fuel + 3)
        (mkD (ParseResult.ok Event.streamStart ::
          ParseResult.ok Event.documentStart :: ParseResult.ok e :: tail)
          Event.noEvent)
      = ({ source := tail, event := Event.documentStart, event_buffer := e,
           error := SERDEC_YAML_NO_ERROR, problem := "" }, 0) := by
  simp [prepare_deserializer, yaml_peek_event, yaml_next_event, mkD, h1, h2]

/-- C1.  Structural round trip: for every in-memory value built of maps,
lists, booleans, integers and strings, encoding it with the serializer
routines and decoding the produced document again (with the
schema-directed visitors the application derives from the value's own
shape) yields a value identical to the original.  Since the first decode
of any well-formed document yields such a `YamlValue`, decode/re-encode/
decode is the identity on decoded values. -/
theorem claim_C1_roundtrip (v : YamlValue) : roundTrip v = some v := by
  obtain ⟨e0, tl, hve, hne0, _, _, hnss, hnds⟩ := valueEvents_head_ne v
  have hdoc : (serializeDoc v).emitted.map ParseResult.ok
      = ParseResult.ok Event.streamStart ::
        ParseResult.ok Event.documentStart :: ParseResult.ok e0 ::
        (tl.map ParseResult.ok ++
          [ParseResult.ok Event.documentEnd,
           ParseResult.ok Event.streamEnd]) := by
    rw [serializeDoc_emitted, hve]
    simp
  have hlen : ((serializeDoc v).emitted.map ParseResult.ok).length + 1
      = (tl.length + 3) + 3 := by
    rw [hdoc]
    simp
  have hprep := prepare_deserializer_doc (tl.length + 3) e0
    (tl.map ParseResult.ok ++
      [ParseResult.ok Event.documentEnd, ParseResult.ok Event.streamEnd])
    hnss hnds
  have hnew : serdec_yaml_deserializer_new_string
      ((serializeDoc v).emitted.map ParseResult.ok)
      = some { source := tl.map ParseResult.ok ++
                 [ParseResult.ok Event.documentEnd,
                  ParseResult.ok Event.streamEnd],
               event := Event.documentStart, event_buffer := e0,
               error := SERDEC_YAML_NO_ERROR, problem := "" } := by
    unfold serdec_yaml_deserializer_new_string
    rw [hlen, hdoc, hprep]
    simp
  have hun := decodeAs_unpeek v
    (tl.map ParseResult.ok ++
      [ParseResult.ok Event.documentEnd, ParseResult.ok Event.streamEnd])
    Event.documentStart Event.documentStart e0 SERDEC_YAML_NO_ERROR ""
    hne0
  have hfresh : ParseResult.ok e0 ::
      (tl.map ParseResult.ok ++
        [ParseResult.ok Event.documentEnd, ParseResult.ok Event.streamEnd])
      = (valueEvents v).map ParseResult.ok ++
        [ParseResult.ok Event.documentEnd, ParseResult.ok Event.streamEnd]
      := by
    simp [hve]
  rw [hfresh] at hun
  obtain ⟨e2, hdec⟩ := decodeAs_serialize v
    [ParseResult.ok Event.documentEnd, ParseResult.ok Event.streamEnd]
    Event.documentStart SERDEC_YAML_NO_ERROR ""
  unfold roundTrip
  rw [hnew]
  simp [hun, hdec]

/-! ## C4: list decoding invokes the visitor once per element, in index
order -/

/-- The entry loop of `serdec_yaml_deserialize_list`, run with the
schema-driven visitor over the serialized events of `elems` followed by
the sequence terminator: every element is visited once and the visitor's
log grows by the consecutive indices starting at the loop's entry index. -/
theorem listLoop_schemaVisitor (elems : List YamlValue) :
    ∀ (fuel : Nat), elems.length + 1 ≤ fuel →
    ∀ (tr : List Nat) (idx : Nat) (rest : List ParseResult) (ev : Event)
      (er : Int) (pb : String),
    ∃ e2, listLoop schemaListVisitor fuel
        { source := (elemsEvents elems).map ParseResult.ok ++
            (ParseResult.ok Event.sequenceEnd :: rest),
          event := ev, event_buffer := Event.noEvent, error := er,
          problem := pb }
        (elems, tr) idx
      = ({ source := rest, event := e2, event_buffer := Event.noEvent,
           error := er, problem := pb },
         ([], tr ++ List.range' idx elems.length), 0) := by
  induction elems with
  | nil =>
      intro fuel hfuel tr idx rest ev er pb
      cases fuel with
      | zero => omega
      | succ f =>
          refine ⟨ev, ?_⟩
          simp [listLoop, yaml_peek_event, elemsEvents]
  | cons sub ls ih =>
      intro fuel hfuel tr idx rest ev er pb
      cases fuel with
      | zero => simp at hfuel
      | succ f =>
          obtain ⟨e0, tl, hve, hne0, hnse, _, _, _⟩ := valueEvents_head_ne sub
          have hsrc : (elemsEvents (sub :: ls)).map ParseResult.ok ++
              (ParseResult.ok Event.sequenceEnd :: rest)
              = ParseResult.ok e0 ::
                (tl.map ParseResult.ok ++
                  ((elemsEvents ls).map ParseResult.ok ++
                    (ParseResult.ok Event.sequenceEnd :: rest))) := by
            simp [elemsEvents, hve]
          obtain ⟨e1, hdec⟩ := decodeAs_serialize sub
            ((elemsEvents ls).map ParseResult.ok ++
              (ParseResult.ok Event.sequenceEnd :: rest)) ev er pb
          have hun := decodeAs_unpeek sub
            (tl.map ParseResult.ok ++
              ((elemsEvents ls).map ParseResult.ok ++
                (ParseResult.ok Event.sequenceEnd :: rest)))
            ev ev e0 er pb hne0
          have hfresh : ParseResult.ok e0 ::
              (tl.map ParseResult.ok ++
                ((elemsEvents ls).map ParseResult.ok ++
                  (ParseResult.ok Event.sequenceEnd :: rest)))
              = (valueEvents sub).map ParseResult.ok ++
                ((elemsEvents ls).map ParseResult.ok ++
                  (ParseResult.ok Event.sequenceEnd :: rest)) := by
            simp [hve]
          rw [hfresh] at hun
          have hf2 : ls.length + 1 ≤ f := by
            simp only [List.length_cons] at hfuel
            omega
          obtain ⟨e2, hrec⟩ := ih f hf2 (tr ++ [idx]) (idx + 1)
            rest e1 er pb
          refine ⟨e2, ?_⟩
          rw [hsrc]
          simp only [listLoop, yaml_peek_event]
          simp only [schemaListVisitor, hun, hdec]
          simp [hnse, hrec, List.range'_succ]

/-- C4.  Decoding a serialized list of `n` elements with
`serdec_yaml_deserialize_list` and a visitor that decodes one element per
invocation: the visitor is invoked exactly `n` times, the index argument
of each invocation equaling the number of prior (successful) invocations,
so its log of indices is precisely `0, 1, ..., n-1` in that order, all
sub-schemas are consumed, and the decode returns success. -/
theorem claim_C4_list_visitor_indices (elems : List YamlValue) (fuel : Nat)
    (rest : List ParseResult) (ev : Event) (er : Int) (pb : String)
    (hfuel : elems.length + 1 ≤ fuel) :
    ((serdec_yaml_deserialize_list schemaListVisitor fuel
      { source := (valueEvents (YamlValue.list elems)).map ParseResult.ok
          ++ rest,
        event := ev, event_buffer := Event.noEvent, error := er,
        problem := pb }
      (elems, [])).2.1.2 = List.range elems.length) ∧
    ((serdec_yaml_deserialize_list schemaListVisitor fuel
      { source := (valueEvents (YamlValue.list elems)).map ParseResult.ok
          ++ rest,
        event := ev, event_buffer := Event.noEvent, error := er,
        problem := pb }
      (elems, [])).2.1.1 = []) ∧
    ((serdec_yaml_deserialize_list schemaListVisitor fuel
      { source := (valueEvents (YamlValue.list elems)).map ParseResult.ok
          ++ rest,
        event := ev, event_buffer := Event.noEvent, error := er,
        problem := pb }
      (elems, [])).2.2 = 0) := by
  have hsrc : (valueEvents (YamlValue.list elems)).map ParseResult.ok ++ rest
      = ParseResult.ok Event.sequenceStart ::
        ((elemsEvents elems).map ParseResult.ok ++
          (ParseResult.ok Event.sequenceEnd :: rest)) := by
    simp [valueEvents]
  obtain ⟨e2, hloop⟩ := listLoop_schemaVisitor elems fuel hfuel [] 0 rest
    Event.sequenceStart er pb
  rw [hsrc]
  simp only [serdec_yaml_deserialize_list, yaml_next_event_fresh]
  simp [hloop, List.range_eq_range']

/-- Witness for C4: a four-element list produces visitor indices
`[0, 1, 2, 3]`, in that order, once each, and the decode succeeds. -/
theorem claim_C4_list_visitor_indices_witness :
    ((serdec_yaml_deserialize_list schemaListVisitor 5
      { source := (valueEvents (YamlValue.list
          [YamlValue.int 1, YamlValue.int 2, YamlValue.int 3,
           YamlValue.int 4])).map ParseResult.ok ++ [],
        event := Event.noEvent, event_buffer := Event.noEvent, error := 0,
        problem := "" }
      ([YamlValue.int 1, YamlValue.int 2, YamlValue.int 3,
        YamlValue.int 4], [])).2.1.2 = [0, 1, 2, 3]) ∧
    ((serdec_yaml_deserialize_list schemaListVisitor 5
      { source := (valueEvents (YamlValue.list
          [YamlValue.int 1, YamlValue.int 2, YamlValue.int 3,
           YamlValue.int 4])).map ParseResult.ok ++ [],
        event := Event.noEvent, event_buffer := Event.noEvent, error := 0,
        problem := "" }
      ([YamlValue.int 1, YamlValue.int 2, YamlValue.int 3,
        YamlValue.int 4], [])).2.2 = 0) := by
  have h := claim_C4_list_visitor_indices
    [YamlValue.int 1, YamlValue.int 2, YamlValue.int 3, YamlValue.int 4]
    5 [] Event.noEvent 0 "" (by norm_num)
  refine ⟨?_, h.2.2⟩
  rw [h.1]
  rfl

end Serdec
